import Mathlib

/-!
Verification of the `zerg` logging library core against its specification.

The development shallowly embeds the C++ sources:

* `include/cpp_logger/lock_free_queue.hpp` — the bounded MPMC ring buffer
  (`LockFreeQueue`): capacity rounding (`nextPowerOf2`), `enqueue_impl`,
  `dequeue`, `isEmpty`, `size`.
* `include/cpp_logger/logger.hpp` / `logger.tpp` — the asynchronous log
  engine: the producer path `log`, `setLogLevel`, `sync`, the consumer body
  `processLogEntry`, `rotateLogFile` (both source revisions), `getFileName`,
  `getVerbosityString`, `sanitizeString`, and the timestamp rendering.
* `include/cpp_logger/backend/file_log_backend.hpp` — the buffered append
  file sink (`write`, `writeNewline`, `flush`).
* `include/cpp_logger/global_logger.hpp` — the process-global registry
  (`getGlobalLogger`, `resetGlobalLogger`).

Modelling conventions:

* `size_t` values produced by constructor arithmetic are reduced modulo
  `2 ^ 64` exactly where the C++ arithmetic can wrap (`nextPowerOf2`'s
  decrement/increment, the `_mask` computation).  The monotone 64-bit
  `head`/`tail` tickets are modelled as unbounded naturals: the source
  itself ignores ticket overflow (it occurs only after ~2^64 operations).
* The sequential semantics of the queue is modelled: each C++
  compare-exchange succeeds on the first attempt, so the retry loop of
  `enqueue_impl`/`dequeue` runs exactly one iteration.
* The C++ code indexes `_slots[idx]` without a bounds check; the model
  reads the slot with `List.getD` (out-of-range reads return a default
  slot and fail the turn check).  Theorem `c10_zero_capacity_unsafe`
  shows when the real access would be out of bounds.
* The external printf-style formatter is opaque per the spec; the producer
  path takes the formatter's output as an argument.
* Byte sequences are modelled as `List Char` restricted to the byte-like
  fragment used by the logger; `isprint` is the C-locale classifier.
-/

namespace Zerg

/-- Modulus of `size_t` arithmetic (64-bit). -/
def sizeTMod : Nat := 2 ^ 64

/-- `constants.hpp`: shift amounts for `nextPowerOf2`. -/
def SHIFT_1 : Nat := 1

/-- `constants.hpp`. -/
def SHIFT_2 : Nat := 2

/-- `constants.hpp`. -/
def SHIFT_4 : Nat := 4

/-- `constants.hpp`. -/
def SHIFT_8 : Nat := 8

/-- `constants.hpp`. -/
def SHIFT_16 : Nat := 16

/-- `constants.hpp`. -/
def SHIFT_32 : Nat := 32

/-- `constants.hpp`: `MAX_FILE_SIZE`. -/
def MAX_FILE_SIZE : Nat := 1024

/-- `constants.hpp`: `DEFAULT_BUFFER_SIZE`. -/
def DEFAULT_BUFFER_SIZE : Nat := 1024 * 1024

/-- `LockFreeQueue::nextPowerOf2` (lock_free_queue.hpp:161-171):
`v--; v |= v >> 1; v |= v >> 2; v |= v >> 4; v |= v >> 8; v |= v >> 16;
v |= v >> 32; v++;` on `size_t`, with the decrement and increment reduced
modulo `2^64` (the intermediate or/shift steps cannot leave `[0, 2^64)`). -/
def nextPowerOf2 (v : Nat) : Nat :=
  let v1 := (v + (sizeTMod - 1)) % sizeTMod
  let v2 := v1 ||| (v1 >>> SHIFT_1)
  let v3 := v2 ||| (v2 >>> SHIFT_2)
  let v4 := v3 ||| (v3 >>> SHIFT_4)
  let v5 := v4 ||| (v4 >>> SHIFT_8)
  let v6 := v5 ||| (v5 >>> SHIFT_16)
  let v7 := v6 ||| (v6 >>> SHIFT_32)
  (v7 + 1) % sizeTMod

/-- Proof-support abbreviation for one `v |= v >> k` step of
`nextPowerOf2`. -/
def orShiftStep (k v : Nat) : Nat := v ||| (v >>> k)

/-- One ring slot (`LockFreeQueue::Slot`): the per-slot sequence number
`turn` plus the in-place storage, which holds a constructed value exactly
when the slot is in its full state. -/
structure Slot (α : Type) where
  turn : Nat
  storage : Option α
deriving DecidableEq, Repr

/-- The ring buffer state (`LockFreeQueue<T>`): `_capacity`, `_mask`,
`_head.value`, `_tail.value`, `_slots`. -/
structure LockFreeQueue (α : Type) where
  capacity : Nat
  mask : Nat
  head : Nat
  tail : Nat
  slots : List (Slot α)
deriving DecidableEq, Repr

/-- The constructor `LockFreeQueue(capacity)` (lock_free_queue.hpp:50-54):
round the request up with `nextPowerOf2`, set `_mask = _capacity - 1`
(`size_t` subtraction, hence the wrap when `_capacity = 0`), allocate
`_capacity` value-initialized slots, tickets start at zero. -/
def mkLockFreeQueue (α : Type) (capacity : Nat) : LockFreeQueue α :=
  let cap := nextPowerOf2 capacity
  { capacity := cap
    mask := (cap + (sizeTMod - 1)) % sizeTMod
    head := 0
    tail := 0
    slots := List.replicate cap ⟨0, none⟩ }

/-- `LockFreeQueue::enqueue_impl` (lock_free_queue.hpp:66-95), sequential
semantics (the CAS on `_head` succeeds).  Returns the `bool` result and
the post state:
full check `head - tail >= capacity - 1`, slot index `head & mask`, turn
`head / capacity`, the empty-slot check `slots[idx].turn == 2*turn`, then
construct the item in the slot and publish `2*turn + 1`. -/
def enqueue (q : LockFreeQueue α) (item : α) : Bool × LockFreeQueue α :=
  if q.capacity - 1 ≤ q.head - q.tail then (false, q)
  else
    let idx := q.head &&& q.mask
    let turn := q.head / q.capacity
    let s := q.slots.getD idx ⟨0, none⟩
    if s.turn ≠ 2 * turn then (false, q)
    else
      (true, { q with head := q.head + 1
                      slots := q.slots.set idx ⟨2 * turn + 1, some item⟩ })

/-- `LockFreeQueue::dequeue` (lock_free_queue.hpp:98-123), sequential
semantics (the CAS on `_tail` succeeds).  Returns the dequeued value (if
any) and the post state: slot index `tail & mask`, turn `tail / capacity`,
the full-slot check `slots[idx].turn == 2*turn + 1`, then move the item
out, destroy it, and publish `2*(turn + 1)`. -/
def dequeue (q : LockFreeQueue α) : Option α × LockFreeQueue α :=
  let idx := q.tail &&& q.mask
  let turn := q.tail / q.capacity
  let s := q.slots.getD idx ⟨0, none⟩
  if s.turn ≠ 2 * turn + 1 then (none, q)
  else
    (s.storage, { q with tail := q.tail + 1
                         slots := q.slots.set idx ⟨2 * (turn + 1), none⟩ })

/-- `LockFreeQueue::isEmpty` (lock_free_queue.hpp:127-130). -/
def isEmpty (q : LockFreeQueue α) : Bool :=
  q.head == q.tail

/-- `LockFreeQueue::size` (lock_free_queue.hpp:132-136):
`head >= tail ? head - tail : capacity - (tail - head)`. -/
def size (q : LockFreeQueue α) : Nat :=
  if q.tail ≤ q.head then q.head - q.tail else q.capacity - (q.tail - q.head)

/-- A client operation on the ring: attempt an enqueue of a value, or
attempt a dequeue. -/
inductive QueueOp (α : Type) where
  | enq (x : α)
  | deq
deriving DecidableEq, Repr

/-- Run a sequence of operations.  Returns the final state, the list of
successfully enqueued values (in order), and the list of successfully
dequeued values (in order). -/
def runOps (q : LockFreeQueue α) : List (QueueOp α) → LockFreeQueue α × List α × List α
  | [] => (q, [], [])
  | QueueOp.enq x :: ops =>
    let r := enqueue q x
    let rest := runOps r.2 ops
    (rest.1, if r.1 then x :: rest.2.1 else rest.2.1, rest.2.2)
  | QueueOp.deq :: ops =>
    let r := dequeue q
    let rest := runOps r.2 ops
    (rest.1, rest.2.1, match r.1 with
                       | some x => x :: rest.2.2
                       | none => rest.2.2)

/-- The smallest ticket `t ≥ base` with `t % cap = i` (for `i < cap`):
the ticket of the next operation that will target slot `i`. -/
def nextTicket (base i cap : Nat) : Nat :=
  base + (i + cap - base % cap) % cap

/-- Representation invariant tying a ring state to the abstract FIFO
content `model` (front of `model` = next value to dequeue):

* the capacity is the power of two computed by the constructor and the
  mask is `capacity - 1`;
* exactly `capacity` slots are allocated;
* `tail ≤ head` and `head - tail` is the number of stored values, at most
  `capacity - 1` (one slot is reserved);
* the slot targeted by consumer ticket `tail + j` is in its full state for
  that ticket and stores `model[j]`;
* every other slot is in its empty state for the next producer ticket that
  will target it. -/
structure Inv (q : LockFreeQueue α) (model : List α) : Prop where
  pow : ∃ k, q.capacity = 2 ^ k
  mask_eq : q.mask = q.capacity - 1
  len : q.slots.length = q.capacity
  tail_le : q.tail ≤ q.head
  count : q.head - q.tail = model.length
  bound : q.head - q.tail ≤ q.capacity - 1
  full : ∀ j (h : j < model.length),
    q.slots.getD ((q.tail + j) % q.capacity) ⟨0, none⟩ =
      ⟨2 * ((q.tail + j) / q.capacity) + 1, some (model.get ⟨j, h⟩)⟩
  empty : ∀ i < q.capacity,
    (∀ j < model.length, (q.tail + j) % q.capacity ≠ i) →
    q.slots.getD i ⟨0, none⟩ =
      ⟨2 * (nextTicket q.head i q.capacity / q.capacity), none⟩

/-! ### The log engine (logger.hpp / logger.tpp) -/

/-- `cpp_logger::Verbosity` (logger.hpp:46-53), an ordered enumeration. -/
inductive Verbosity where
  | DEBUG_LVL
  | INFO_LVL
  | WARN_LVL
  | ERROR_LVL
  | FATAL_LVL
deriving DecidableEq, Repr

/-- Underlying integral value of the `std::uint8_t` enum, used by the
`level >= _log_level` comparison. -/
def Verbosity.toNat : Verbosity → Nat
  | .DEBUG_LVL => 0
  | .INFO_LVL => 1
  | .WARN_LVL => 2
  | .ERROR_LVL => 3
  | .FATAL_LVL => 4

/-- `Logger::LogEntry` (logger.hpp:166-173): severity, source-file pointer,
line, retained format pointer, and the message already expanded by the
external formatter (`fmt::format` is opaque per the spec). -/
structure LogEntry where
  level : Verbosity
  file : List Char
  line : Int
  format : List Char
  args : List Char
deriving DecidableEq, Repr

/-- C-locale `isprint`: the printable bytes are exactly `0x20`..`0x7E`. -/
def isprint (c : Char) : Bool := 0x20 ≤ c.toNat && c.toNat ≤ 0x7E

/-- `Logger::sanitizeString` (logger.hpp:293-300): remove every byte for
which `isprint` returns 0 (`std::remove_if` + `resize`). -/
def sanitizeString (buffer : List Char) : List Char :=
  buffer.filter (fun c => isprint c)

/-- `Logger::getVerbosityString` (logger.hpp:268-285).  The C++ `default`
branch returning "UNKNOWN" is unreachable for the five valid enum
values, which are the only inhabitants of the model type. -/
def getVerbosityString : Verbosity → List Char
  | .DEBUG_LVL => "DEBUG".data
  | .INFO_LVL => "INFO".data
  | .WARN_LVL => "WARN".data
  | .ERROR_LVL => "ERROR".data
  | .FATAL_LVL => "FATAL".data

/-- `Logger::getFileName` (logger.hpp:287-291): the portion of the path
after the last `/` or `\` (`find_last_of("/\\")` + `substr(pos + 1)`);
the whole path when neither occurs. -/
def getFileName (path : List Char) : List Char :=
  (path.reverse.takeWhile (fun c => ¬ (c = '/' ∨ c = '\\'))).reverse

/-- Decimal digit character. -/
def digitChar (n : Nat) : Char :=
  match n with
  | 0 => '0'
  | 1 => '1'
  | 2 => '2'
  | 3 => '3'
  | 4 => '4'
  | 5 => '5'
  | 6 => '6'
  | 7 => '7'
  | 8 => '8'
  | _ => '9'

/-- Fuel-indexed decimal rendering helper (structural recursion on fuel). -/
def natDigitsAux : Nat → Nat → List Char
  | 0, _ => []
  | fuel + 1, n =>
    if n < 10 then [digitChar n]
    else natDigitsAux fuel (n / 10) ++ [digitChar (n % 10)]

/-- Decimal rendering of a natural number, as `fmt` prints it. -/
def renderNat (n : Nat) : List Char := natDigitsAux (n + 1) n

/-- Decimal rendering of the `int` line number, as `fmt` prints it with
`{}`. -/
def renderInt (i : Int) : List Char :=
  if i < 0 then '-' :: renderNat i.natAbs else renderNat i.natAbs

/-- A broken-down local time (`std::tm`), the result of `localtime_r` on
the consumer's clock sample; the clock itself is external input. -/
structure Tm where
  year : Nat
  mon : Nat
  mday : Nat
  hour : Nat
  min : Nat
  sec : Nat
deriving DecidableEq, Repr

/-- Two-digit zero-padded field of `strftime`. -/
def pad2 (n : Nat) : List Char :=
  if n < 10 then '0' :: renderNat n else renderNat n

/-- Four-digit zero-padded year field. -/
def pad4 (n : Nat) : List Char :=
  (if n < 10 then "000".data
   else if n < 100 then "00".data
   else if n < 1000 then "0".data
   else []) ++ renderNat n

/-- `Logger::getCurrentTime` (logger.tpp:203-217): `strftime` with format
`"%Y-%m-%d %X"` (`%X` = `%H:%M:%S` in the C locale) applied to the
broken-down time. -/
def getCurrentTime (t : Tm) : List Char :=
  pad4 t.year ++ "-".data ++ pad2 t.mon ++ "-".data ++ pad2 t.mday ++
  " ".data ++ pad2 t.hour ++ ":".data ++ pad2 t.min ++ ":".data ++ pad2 t.sec

/-- The line rendered by `processLogEntry`'s
`fmt::format_to(.., "{} [{}] {}:{} {}", getCurrentTime(),
getVerbosityString(level), getFileName(file), line, args)`
(logger.hpp:240-241, logger.tpp:186-187), before sanitization. -/
def formatLogLine (t : Tm) (e : LogEntry) : List Char :=
  getCurrentTime t ++ " [".data ++ getVerbosityString e.level ++ "] ".data ++
  getFileName e.file ++ ":".data ++ renderInt e.line ++ " ".data ++ e.args

/-- A buffered output stream over a file: `pending` models the user-space
buffer (`std::ofstream`'s rdbuf / the backend's buffer), `device` the
bytes already handed to the file. -/
structure Backend where
  pending : List Char
  device : List Char
deriving DecidableEq, Repr

/-- `FileLogBackend::write` / `ofstream::write`: append the bytes to the
stream buffer. -/
def writeB (b : Backend) (data : List Char) : Backend :=
  { b with pending := b.pending ++ data }

/-- `FileLogBackend::writeNewline` (`_ofs.put('\n')`). -/
def writeNewlineB (b : Backend) : Backend :=
  { b with pending := b.pending ++ ['\n'] }

/-- `FileLogBackend::flush` / `ofstream::flush`: drain the user-space
buffer to the device. -/
def flushB (b : Backend) : Backend :=
  { pending := [], device := b.device ++ b.pending }

/-- `FileLogBackend::FileLogBackend(filename)`
(file_log_backend.hpp:33-38): opens the file with
`std::ios::out | std::ios::app`, so the bytes already on the device are
kept and the fresh stream buffer is empty. -/
def mkFileLogBackend (disk : List Char) : Backend :=
  { pending := [], device := disk }

/-- All bytes the file will hold once the stream is closed (device bytes
plus still-buffered bytes). -/
def backendContent (b : Backend) : List Char := b.device ++ b.pending

/-- Consumer-side engine state of the backend revision (logger.tpp):
the current `_backend` and `_current_size`. -/
structure LoggerTpp where
  backend : Backend
  current_size : Nat
deriving DecidableEq, Repr

/-- `Logger::rotateLogFile` of the backend revision (logger.tpp:138-144):
`_backend = std::make_unique<FileLogBackend>(_filename); _current_size = 0;`.
Destroying the previous backend closes its stream, flushing its buffered
bytes to the file; the fresh backend opens the same file in append mode. -/
def rotateLogFileTpp (s : LoggerTpp) : LoggerTpp :=
  { backend := mkFileLogBackend (s.backend.device ++ s.backend.pending)
    current_size := 0 }

/-- `Logger::processLogEntry` of the backend revision (logger.tpp:181-201):
format, sanitize, rotate when `_current_size + size > MaxFileSize`, write
the bytes, write a newline, advance `_current_size` by the pre-newline
byte count.  `M` is the `MaxFileSize` template parameter, `t` the clock
sample taken by `getCurrentTime`. -/
def processLogEntryTpp (M : Nat) (t : Tm) (s : LoggerTpp) (e : LogEntry) : LoggerTpp :=
  let buf := sanitizeString (formatLogLine t e)
  let s1 := if M < s.current_size + buf.length then rotateLogFileTpp s else s
  { backend := writeNewlineB (writeB s1.backend buf)
    current_size := s1.current_size + buf.length }

/-- Consumer-side engine state of the header revision (logger.hpp): the
`_logfile` stream and `_current_size`. -/
structure LoggerHpp where
  logfile : Backend
  current_size : Nat
deriving DecidableEq, Repr

/-- `Logger::rotateLogFile` of the header revision (logger.hpp:192-200):
`_logfile.close()` (flushing the buffer), then re-open the same filename
with `std::ios::out | std::ios::trunc`, which truncates the file, then
`_current_size = 0`. -/
def rotateLogFileHpp (_s : LoggerHpp) : LoggerHpp :=
  { logfile := { pending := [], device := [] }, current_size := 0 }

/-- `Logger::processLogEntry` of the header revision (logger.hpp:235-255):
same as the backend revision except the bytes go to `_logfile` and the
newline is written with `std::endl`, which also flushes. -/
def processLogEntryHpp (M : Nat) (t : Tm) (s : LoggerHpp) (e : LogEntry) : LoggerHpp :=
  let buf := sanitizeString (formatLogLine t e)
  let s1 := if M < s.current_size + buf.length then rotateLogFileHpp s else s
  { logfile := flushB (writeNewlineB (writeB s1.logfile buf))
    current_size := s1.current_size + buf.length }

/-- The sanitized line plus its newline: the bytes one processed record
contributes to the sink. -/
def entryOutput (t : Tm) (e : LogEntry) : List Char :=
  sanitizeString (formatLogLine t e) ++ ['\n']

/-- Producer-visible engine state: the ring and the atomic `_log_level`. -/
structure ProducerState where
  queue : LockFreeQueue LogEntry
  log_level : Verbosity
deriving DecidableEq, Repr

/-- `Logger::setLogLevel` (logger.tpp:89-93): store the new level. -/
def setLogLevel (s : ProducerState) (level : Verbosity) : ProducerState :=
  { s with log_level := level }

/-- `Logger::log` (logger.hpp:127-152, logger.tpp:95-113): if
`level >= _log_level` build the entry (with the message `formatted`
already produced by the opaque external formatter) and `enqueue` it,
else return at once.  The C++ function returns `void`: the produced state
is the entire observable effect, and a failed enqueue leaves the ring
unchanged (the condition variable notification has no queue effect). -/
def log (s : ProducerState) (level : Verbosity) (file : List Char) (line : Int)
    (fmtStr : List Char) (formatted : List Char) : ProducerState :=
  if s.log_level.toNat ≤ level.toNat then
    { s with queue := (enqueue s.queue ⟨level, file, line, fmtStr, formatted⟩).2 }
  else s

/-- The drain loop of `Logger::sync` (logger.hpp:154-163) and of
`zerg::syncLogs` (log_sync.hpp:35-83): repeatedly `dequeue` and
`processLogEntry` until the queue yields no more.  The C++ `while` loop
is embedded with explicit fuel; any fuel at least the queue's occupancy
reaches the terminating `dequeue` failure. -/
def syncDrain (M : Nat) (t : Tm) :
    Nat → LockFreeQueue LogEntry → LoggerTpp → LockFreeQueue LogEntry × LoggerTpp
  | 0, q, st => (q, st)
  | fuel + 1, q, st =>
    match dequeue q with
    | (some e, q') => syncDrain M t fuel q' (processLogEntryTpp M t st e)
    | (none, _) => (q, st)

/-- `Logger::sync` (logger.hpp:154-163) / `zerg::syncLogs`: drain the
queue in the calling thread, then flush the sink under the file mutex. -/
def sync (M : Nat) (t : Tm) (fuel : Nat) (q : LockFreeQueue LogEntry)
    (st : LoggerTpp) : LockFreeQueue LogEntry × LoggerTpp :=
  let r := syncDrain M t fuel q st
  (r.1, { r.2 with backend := flushB r.2.backend })

/-! ### The global logger registry (global_logger.hpp) -/

/-- The process-global registry state.  `instances` is the static map
local to `getGlobalLogger` (global_logger.hpp:53); `resetInstances` is
the distinct static map that `resetGlobalLogger` allocates for itself
(global_logger.hpp:114-116) — in the source these are two different
function-local statics.  Engines are identified by the order of their
construction (`nextEngine` hands out fresh identities, modelling
`std::make_shared<Logger>` constructing a new engine). -/
structure Registry where
  instances : List (List Char × Nat)
  resetInstances : List (List Char × Nat)
  nextEngine : Nat
  logFilePath : List Char
  logFileName : List Char
deriving DecidableEq, Repr

/-- `getLogFilePath() + (filename.empty() ? getLogFileName() : filename)`
(global_logger.hpp:57). -/
def resolvePath (r : Registry) (filename : List Char) : List Char :=
  r.logFilePath ++ (if filename.isEmpty then r.logFileName else filename)

/-- `instances.find(fullPath)` on an association list. -/
def lookupPath (m : List (List Char × Nat)) (p : List Char) : Option Nat :=
  match m.find? (fun kv => kv.1 == p) with
  | some kv => some kv.2
  | none => none

/-- `getGlobalLogger` (global_logger.hpp:50-63): resolve the path; if no
engine is registered under it, construct a fresh one and register it;
return the registered engine. -/
def getGlobalLogger (r : Registry) (filename : List Char) : Nat × Registry :=
  let fullPath := resolvePath r filename
  match lookupPath r.instances fullPath with
  | some eng => (eng, r)
  | none =>
    (r.nextEngine,
     { r with instances := r.instances ++ [(fullPath, r.nextEngine)]
              nextEngine := r.nextEngine + 1 })

/-- `resetGlobalLogger` (global_logger.hpp:112-121): resolve the path and
erase it — from the function's own freshly allocated static map, not
from the map `getGlobalLogger` consults. -/
def resetGlobalLogger (r : Registry) (filename : List Char) : Registry :=
  let fullPath := resolvePath r filename
  { r with resetInstances := r.resetInstances.filter (fun kv => ¬ (kv.1 == fullPath)) }

/-- Registry state at process start: both maps empty,
`logFilePath = "./"`, `logFileName = "global_logfile.log"`
(global_logger.hpp:36-46). -/
def initialRegistry : Registry :=
  { instances := []
    resetInstances := []
    nextEngine := 0
    logFilePath := "./".data
    logFileName := "global_logfile.log".data }

/-! ### Rotation accounting (for the rotation-bound property) -/

/-- Evolution of `_current_size` across one `processLogEntry` of a record
whose sanitized line has `n` bytes: reset to zero on rotation, then
advance by `n`. -/
def stepSize (M cur n : Nat) : Nat := if M < cur + n then n else cur + n

/-- Instrumentation of the consumer's rotation logic over the sizes of
successive sanitized lines: collects, for every rotation after the first,
the number of record-text bytes the consumer wrote since the previous
rotation.  `cur` is the running `_current_size`, `seen` whether a
rotation has happened yet. -/
def rotationSegments (M : Nat) : List Nat → Nat → Bool → List Nat
  | [], _, _ => []
  | n :: ns, cur, seen =>
    if M < cur + n then
      (if seen then [cur] else []) ++ rotationSegments M ns (stepSize M cur n) true
    else rotationSegments M ns (stepSize M cur n) seen

/-! ### Characterization of `nextPowerOf2` -/

theorem nextPowerOf2_eq (v : Nat) :
    nextPowerOf2 v =
      ((orShiftStep SHIFT_32 (orShiftStep SHIFT_16 (orShiftStep SHIFT_8
        (orShiftStep SHIFT_4 (orShiftStep SHIFT_2 (orShiftStep SHIFT_1
          ((v + (sizeTMod - 1)) % sizeTMod))))))) + 1) % sizeTMod := rfl

theorem orShiftStep_testBit (m w r : Nat)
    (h : ∀ p, r.testBit p = true ↔ ∃ i, i < m ∧ w.testBit (p + i) = true) :
    ∀ p, (orShiftStep m r).testBit p = true ↔
      ∃ i, i < 2 * m ∧ w.testBit (p + i) = true := by
  intro p
  unfold orShiftStep
  rw [Nat.testBit_or, Bool.or_eq_true, Nat.testBit_shiftRight, h p, h (m + p)]
  constructor
  · rintro (⟨i, hi, hb⟩ | ⟨i, hi, hb⟩)
    · exact ⟨i, by omega, hb⟩
    · exact ⟨m + i, by omega, by rwa [show p + (m + i) = m + p + i by omega]⟩
  · rintro ⟨i, hi, hb⟩
    by_cases hc : i < m
    · exact Or.inl ⟨i, hc, hb⟩
    · exact Or.inr ⟨i - m, by omega, by rwa [show m + p + (i - m) = p + i by omega]⟩

theorem smear_testBit (w : Nat) :
    ∀ p, (orShiftStep SHIFT_32 (orShiftStep SHIFT_16 (orShiftStep SHIFT_8
        (orShiftStep SHIFT_4 (orShiftStep SHIFT_2 (orShiftStep SHIFT_1 w)))))).testBit p
      = true ↔ ∃ i, i < 64 ∧ w.testBit (p + i) = true := by
  have h1 : ∀ p, w.testBit p = true ↔ ∃ i, i < 1 ∧ w.testBit (p + i) = true := by
    intro p
    constructor
    · intro hb; exact ⟨0, by omega, by simpa using hb⟩
    · rintro ⟨i, hi, hb⟩; interval_cases i; simpa using hb
  have h2 := orShiftStep_testBit 1 w w h1
  have h4 := orShiftStep_testBit 2 w _ h2
  have h8 := orShiftStep_testBit 4 w _ h4
  have h16 := orShiftStep_testBit 8 w _ h8
  have h32 := orShiftStep_testBit 16 w _ h16
  have h64 := orShiftStep_testBit 32 w _ h32
  simpa [SHIFT_1, SHIFT_2, SHIFT_4, SHIFT_8, SHIFT_16, SHIFT_32] using h64

theorem smear_bit_iff (w : Nat) (hw : w < 2 ^ 64) (p : Nat) :
    (orShiftStep SHIFT_32 (orShiftStep SHIFT_16 (orShiftStep SHIFT_8
      (orShiftStep SHIFT_4 (orShiftStep SHIFT_2 (orShiftStep SHIFT_1 w)))))).testBit p
      = true ↔ p < Nat.size w := by
  rw [smear_testBit w p]
  constructor
  · rintro ⟨i, _, hib⟩
    have hge : 2 ^ (p + i) ≤ w := Nat.testBit_implies_ge hib
    have hlt : w < 2 ^ Nat.size w := Nat.lt_size_self w
    have : p + i < Nat.size w :=
      (Nat.pow_lt_pow_iff_right (a := 2) (by omega)).mp (lt_of_le_of_lt hge hlt)
    omega
  · intro hp
    have hset : ∃ q, p ≤ q ∧ w.testBit q = true := by
      by_contra hnone
      push_neg at hnone
      have hzero : w >>> p = 0 := by
        apply Nat.eq_of_testBit_eq
        intro j
        rw [Nat.testBit_shiftRight, Nat.zero_testBit]
        exact Bool.not_eq_true _ ▸ hnone (p + j) (by omega)
      have hdiv : w / 2 ^ p = 0 := by
        have := Nat.shiftRight_eq_div_pow w p
        omega
      have hlt : w < 2 ^ p := (Nat.div_eq_zero_iff (by positivity)).mp hdiv
      have : Nat.size w ≤ p := Nat.size_le.mpr hlt
      omega
    rcases hset with ⟨q, hpq, hq⟩
    have hqlt : q < 64 := by
      by_contra hq64
      have hwq : w < 2 ^ q := lt_of_lt_of_le hw (Nat.pow_le_pow_right (by omega) (by omega))
      rw [Nat.testBit_lt_two_pow hwq] at hq
      cases hq
    exact ⟨q - p, by omega, by rwa [show p + (q - p) = q by omega]⟩

theorem smear_eq_size (w : Nat) (hw : w < 2 ^ 64) :
    orShiftStep SHIFT_32 (orShiftStep SHIFT_16 (orShiftStep SHIFT_8
      (orShiftStep SHIFT_4 (orShiftStep SHIFT_2 (orShiftStep SHIFT_1 w)))))
      = 2 ^ Nat.size w - 1 := by
  apply Nat.eq_of_testBit_eq
  intro p
  rw [Nat.testBit_two_pow_sub_one]
  by_cases hp : p < Nat.size w
  · rw [(smear_bit_iff w hw p).mpr hp]
    simp [hp]
  · simp only [decide_eq_false hp]
    rcases Bool.eq_false_or_eq_true ((orShiftStep SHIFT_32 (orShiftStep SHIFT_16
        (orShiftStep SHIFT_8 (orShiftStep SHIFT_4 (orShiftStep SHIFT_2
          (orShiftStep SHIFT_1 w)))))).testBit p) with hb | hb
    · exact absurd ((smear_bit_iff w hw p).mp hb) hp
    · exact hb

theorem nextPowerOf2_of_le (v : Nat) (h1 : 1 ≤ v) (h2 : v ≤ 2 ^ 63) :
    nextPowerOf2 v = 2 ^ Nat.size (v - 1) ∧ Nat.size (v - 1) ≤ 63 := by
  have hsz : Nat.size (v - 1) ≤ 63 := Nat.size_le.mpr (by omega)
  have hdec : (v + (sizeTMod - 1)) % sizeTMod = v - 1 := by
    have hm : sizeTMod = 2 ^ 64 := rfl
    have hv : v + (sizeTMod - 1) = (v - 1) + 1 * sizeTMod := by
      rw [hm] at *; omega
    rw [hv, Nat.add_mul_mod_self_right, Nat.mod_eq_of_lt (by rw [hm]; omega)]
  have hw : v - 1 < 2 ^ 64 := by omega
  have hsm := smear_eq_size (v - 1) hw
  refine ⟨?_, hsz⟩
  rw [nextPowerOf2_eq, hdec, hsm]
  have hple : 2 ^ Nat.size (v - 1) ≤ 2 ^ 63 := Nat.pow_le_pow_right (by omega) hsz
  have hpos : 0 < 2 ^ Nat.size (v - 1) := Nat.pos_pow_of_pos _ (by omega)
  have : 2 ^ Nat.size (v - 1) - 1 + 1 = 2 ^ Nat.size (v - 1) := by omega
  rw [this]
  exact Nat.mod_eq_of_lt (by have : sizeTMod = 2 ^ 64 := rfl; rw [this]; omega)

theorem nextPowerOf2_zero : nextPowerOf2 0 = 0 := by
  have hdec : (0 + (sizeTMod - 1)) % sizeTMod = 2 ^ 64 - 1 := by
    have hm : sizeTMod = 2 ^ 64 := rfl
    rw [hm]
    exact Nat.mod_eq_of_lt (by omega)
  have hsz : Nat.size (2 ^ 64 - 1) = 64 := by
    apply le_antisymm
    · exact Nat.size_le.mpr (by omega)
    · by_contra hlt
      have : Nat.size (2 ^ 64 - 1) ≤ 63 := by omega
      have := Nat.size_le.mp this
      have h63 : (2 : Nat) ^ 63 < 2 ^ 64 := by norm_num
      omega
  have hsm := smear_eq_size (2 ^ 64 - 1) (by omega)
  rw [nextPowerOf2_eq, hdec, hsm, hsz]
  have : (2 : Nat) ^ 64 - 1 + 1 = 2 ^ 64 := by
    have : (0 : Nat) < 2 ^ 64 := by positivity
    omega
  rw [this]
  have hm : sizeTMod = 2 ^ 64 := rfl
  rw [hm, Nat.mod_self]

/-! ### Constructor facts -/

theorem mk_mask_eq (cap : Nat) (hlt : cap - 1 < sizeTMod) (hpos : 1 ≤ cap) :
    (cap + (sizeTMod - 1)) % sizeTMod = cap - 1 := by
  have hm : sizeTMod = 2 ^ 64 := rfl
  have h1 : cap + (sizeTMod - 1) = (cap - 1) + 1 * sizeTMod := by rw [hm] at *; omega
  rw [h1, Nat.add_mul_mod_self_right, Nat.mod_eq_of_lt hlt]

theorem mkLockFreeQueue_spec (α : Type) (c : Nat) (h1 : 1 ≤ c) (h2 : c ≤ 2 ^ 63) :
    ∃ k, k ≤ 63 ∧
      (mkLockFreeQueue α c).capacity = 2 ^ k ∧
      (mkLockFreeQueue α c).mask = (mkLockFreeQueue α c).capacity - 1 ∧
      (mkLockFreeQueue α c).slots = List.replicate (2 ^ k) ⟨0, none⟩ ∧
      (mkLockFreeQueue α c).head = 0 ∧ (mkLockFreeQueue α c).tail = 0 := by
  obtain ⟨hcap, hk⟩ := nextPowerOf2_of_le c h1 h2
  refine ⟨Nat.size (c - 1), hk, hcap, ?_, ?_, rfl, rfl⟩
  · show (nextPowerOf2 c + (sizeTMod - 1)) % sizeTMod = nextPowerOf2 c - 1
    rw [hcap]
    have hle : (2 : Nat) ^ Nat.size (c - 1) ≤ 2 ^ 63 := Nat.pow_le_pow_right (by omega) hk
    have h64 : (2 : Nat) ^ 63 < 2 ^ 64 := by norm_num
    rw [mk_mask_eq _ (by show _ < 2 ^ 64; omega) (Nat.pos_pow_of_pos _ (by omega))]
  · show List.replicate (nextPowerOf2 c) _ = _
    rw [hcap]

/-! ### List helpers -/

theorem getD_set_self (l : List α) (i : Nat) (h : i < l.length) (a d : α) :
    (l.set i a).getD i d = a := by
  simp [List.getD_eq_getElem?_getD, List.getElem?_set_self (by simpa using h)]

theorem getD_set_ne (l : List α) (i j : Nat) (h : i ≠ j) (a d : α) :
    (l.set i a).getD j d = l.getD j d := by
  simp [List.getD_eq_getElem?_getD, List.getElem?_set_ne h]

theorem getD_replicate (n i : Nat) (h : i < n) (a d : α) :
    (List.replicate n a).getD i d = a := by
  simp [List.getD_eq_getElem?_getD, List.getElem?_replicate_of_lt h]

/-! ### `nextTicket` facts -/

theorem nextTicket_ge (base i cap : Nat) : base ≤ nextTicket base i cap :=
  Nat.le_add_right _ _

theorem nextTicket_lt (base i cap : Nat) (hc : 0 < cap) :
    nextTicket base i cap < base + cap := by
  unfold nextTicket
  have := Nat.mod_lt (i + cap - base % cap) hc
  omega

theorem nextTicket_mod (base i cap : Nat) (hc : 0 < cap) (hi : i < cap) :
    nextTicket base i cap % cap = i := by
  unfold nextTicket
  have hb : base % cap < cap := Nat.mod_lt base hc
  rcases Nat.lt_or_ge i (base % cap) with hir | hir
  · have hd : (i + cap - base % cap) % cap = i + cap - base % cap :=
      Nat.mod_eq_of_lt (by omega)
    rw [hd]
    have hsplit : base + (i + cap - base % cap) = i + cap * (base / cap + 1) := by
      have := Nat.div_add_mod base cap
      have hexp : cap * (base / cap + 1) = cap * (base / cap) + cap := by ring
      omega
    rw [hsplit, Nat.add_mul_mod_self_left, Nat.mod_eq_of_lt hi]
  · have hsub : i + cap - base % cap = (i - base % cap) + cap := by omega
    have hd : (i + cap - base % cap) % cap = i - base % cap := by
      rw [hsub, Nat.add_mod_right, Nat.mod_eq_of_lt (by omega)]
    rw [hd]
    have hsplit : base + (i - base % cap) = i + cap * (base / cap) := by
      have := Nat.div_add_mod base cap
      omega
    rw [hsplit, Nat.add_mul_mod_self_left, Nat.mod_eq_of_lt hi]

theorem eq_of_mod_eq_of_within (a b n : Nat) (_hn : 0 < n) (h1 : a ≤ b)
    (h2 : b < a + n) (h3 : a % n = b % n) : a = b := by
  have hdvd : n ∣ (b - a) := (Nat.modEq_iff_dvd' h1).mp h3
  rcases Nat.eq_zero_or_pos (b - a) with hz | hp
  · omega
  · have := Nat.le_of_dvd hp hdvd
    omega

theorem nextTicket_unique (base i cap t : Nat) (hc : 0 < cap) (hi : i < cap)
    (h1 : base ≤ t) (h2 : t < base + cap) (h3 : t % cap = i) :
    t = nextTicket base i cap := by
  have ha := nextTicket_ge base i cap
  have hb := nextTicket_lt base i cap hc
  have hm := nextTicket_mod base i cap hc hi
  rcases Nat.le_total t (nextTicket base i cap) with h | h
  · exact eq_of_mod_eq_of_within t _ cap hc h (by omega) (by rw [h3, hm])
  · exact (eq_of_mod_eq_of_within _ t cap hc h (by omega) (by rw [h3, hm])).symm

theorem nextTicket_self (base cap : Nat) (hc : 0 < cap) :
    nextTicket base (base % cap) cap = base :=
  (nextTicket_unique base (base % cap) cap base hc (Nat.mod_lt base hc)
    le_rfl (by omega) rfl).symm

theorem nextTicket_succ (base i cap : Nat) (hc : 0 < cap) (hi : i < cap)
    (hne : i ≠ base % cap) :
    nextTicket (base + 1) i cap = nextTicket base i cap := by
  have hm := nextTicket_mod base i cap hc hi
  have hge := nextTicket_ge base i cap
  have hlt := nextTicket_lt base i cap hc
  have hne2 : nextTicket base i cap ≠ base := fun h => hne (by rw [← hm, h])
  exact (nextTicket_unique (base + 1) i cap (nextTicket base i cap) hc hi
    (by omega) (by omega) hm).symm

theorem mod_ne_of_between (a b cap : Nat) (hc : 0 < cap) (hab : a < b)
    (h : b < a + cap) : a % cap ≠ b % cap := by
  intro h'
  have := eq_of_mod_eq_of_within a b cap hc (le_of_lt hab) h h'
  omega

/-! ### Queue step lemmas under the representation invariant -/

theorem inv_cap_pos (inv : Inv q model) : 0 < q.capacity := by
  obtain ⟨k, hk⟩ := inv.pow
  rw [hk]
  positivity

theorem inv_and_mask (inv : Inv q model) (t : Nat) :
    t &&& q.mask = t % q.capacity := by
  obtain ⟨k, hk⟩ := inv.pow
  rw [inv.mask_eq, hk, Nat.and_pow_two_sub_one_eq_mod]

theorem inv_unoccupied_head (inv : Inv q model) :
    ∀ j < model.length, (q.tail + j) % q.capacity ≠ q.head % q.capacity := by
  have hcpos := inv_cap_pos inv
  have hcount := inv.count
  have hle := inv.tail_le
  have hbound := inv.bound
  intro j hj
  exact mod_ne_of_between _ _ _ hcpos (by omega) (by omega)

theorem enqueue_succeeds (q : LockFreeQueue α) (model : List α) (x : α)
    (inv : Inv q model) (hroom : model.length < q.capacity - 1) :
    enqueue q x =
      (true, { q with head := q.head + 1
                      slots := q.slots.set (q.head % q.capacity)
                        ⟨2 * (q.head / q.capacity) + 1, some x⟩ }) ∧
    Inv { q with head := q.head + 1
                 slots := q.slots.set (q.head % q.capacity)
                   ⟨2 * (q.head / q.capacity) + 1, some x⟩ } (model ++ [x]) := by
  have hcpos := inv_cap_pos inv
  have hand := inv_and_mask inv q.head
  have hcount := inv.count
  have hle := inv.tail_le
  have hbound := inv.bound
  have hlen := inv.len
  have hguard : ¬ (q.capacity - 1 ≤ q.head - q.tail) := by omega
  have hidxlt : q.head % q.capacity < q.capacity := Nat.mod_lt _ hcpos
  have hunocc := inv_unoccupied_head inv
  have hslot := inv.empty (q.head % q.capacity) hidxlt hunocc
  rw [nextTicket_self q.head q.capacity hcpos] at hslot
  have heq : enqueue q x =
      (true, { q with head := q.head + 1
                      slots := q.slots.set (q.head % q.capacity)
                        ⟨2 * (q.head / q.capacity) + 1, some x⟩ }) := by
    unfold enqueue
    rw [if_neg hguard]
    simp only [hand, hslot]
    rw [if_neg (by simp)]
  refine ⟨heq, ?_⟩
  have htl : q.tail + model.length = q.head := by omega
  constructor
  · exact inv.pow
  · exact inv.mask_eq
  · simpa using hlen
  · show q.tail ≤ q.head + 1
    omega
  · show q.head + 1 - q.tail = (model ++ [x]).length
    simp
    omega
  · show q.head + 1 - q.tail ≤ q.capacity - 1
    omega
  · intro j hj
    simp only [List.length_append, List.length_cons, List.length_nil] at hj
    by_cases hjlen : j < model.length
    · have hne : q.head % q.capacity ≠ (q.tail + j) % q.capacity :=
        (hunocc j hjlen).symm
      show (q.slots.set _ _).getD _ _ = _
      rw [getD_set_ne _ _ _ hne]
      rw [inv.full j hjlen]
      congr 1
      simp [List.get_eq_getElem, List.getElem_append_left hjlen]
    · have hj2 : j = model.length := by omega
      subst hj2
      show (q.slots.set _ _).getD ((q.tail + model.length) % q.capacity) _ = _
      rw [htl, getD_set_self _ _ (by omega) _ _]
      congr 1
      simp [List.get_eq_getElem]
  · intro i hi hiun
    have hihead : q.head % q.capacity ≠ i := by
      have := hiun model.length (by simp)
      rwa [htl] at this
    show (q.slots.set _ _).getD i _ = _
    rw [getD_set_ne _ _ _ hihead]
    have hrestrict : ∀ j < model.length, (q.tail + j) % q.capacity ≠ i := by
      intro j hj
      exact hiun j (by simp; omega)
    rw [inv.empty i hi hrestrict]
    have hne : i ≠ q.head % q.capacity := fun h => hihead h.symm
    rw [show ({ q with head := q.head + 1
                       slots := q.slots.set (q.head % q.capacity)
                         ⟨2 * (q.head / q.capacity) + 1, some x⟩ } :
          LockFreeQueue α).head = q.head + 1 from rfl]
    rw [nextTicket_succ q.head i q.capacity hcpos hi hne]

theorem enqueue_full (q : LockFreeQueue α) (x : α)
    (hfull : q.capacity - 1 ≤ q.head - q.tail) :
    enqueue q x = (false, q) := by
  unfold enqueue
  rw [if_pos hfull]

theorem dequeue_empty_queue (q : LockFreeQueue α)
    (inv : Inv q ([] : List α)) : dequeue q = (none, q) := by
  have hcpos := inv_cap_pos inv
  have hand := inv_and_mask inv q.tail
  have hcount := inv.count
  have hle := inv.tail_le
  have hht : q.head = q.tail := by simp at hcount; omega
  have hidxlt : q.tail % q.capacity < q.capacity := Nat.mod_lt _ hcpos
  have hslot := inv.empty (q.tail % q.capacity) hidxlt (by simp)
  rw [hht, nextTicket_self q.tail q.capacity hcpos] at hslot
  unfold dequeue
  simp only [hand, hslot]
  rw [if_pos (by omega)]

theorem dequeue_succeeds (q : LockFreeQueue α) (x : α) (rest : List α)
    (inv : Inv q (x :: rest)) :
    dequeue q =
      (some x, { q with tail := q.tail + 1
                        slots := q.slots.set (q.tail % q.capacity)
                          ⟨2 * (q.tail / q.capacity + 1), none⟩ }) ∧
    Inv { q with tail := q.tail + 1
                 slots := q.slots.set (q.tail % q.capacity)
                   ⟨2 * (q.tail / q.capacity + 1), none⟩ } rest := by
  have hcpos := inv_cap_pos inv
  have hand := inv_and_mask inv q.tail
  have hcount := inv.count
  have hle := inv.tail_le
  have hbound := inv.bound
  have hlen := inv.len
  simp only [List.length_cons] at hcount
  have hidxlt : q.tail % q.capacity < q.capacity := Nat.mod_lt _ hcpos
  have hslot := inv.full 0 (by simp)
  simp only [Nat.add_zero] at hslot
  have heq : dequeue q =
      (some x, { q with tail := q.tail + 1
                        slots := q.slots.set (q.tail % q.capacity)
                          ⟨2 * (q.tail / q.capacity + 1), none⟩ }) := by
    unfold dequeue
    simp only [hand, hslot]
    rw [if_neg (by simp)]
    have hturn : 2 * (q.tail / q.capacity) + 2 = 2 * (q.tail / q.capacity + 1) := by ring
    simp [List.get_eq_getElem]
  refine ⟨heq, ?_⟩
  constructor
  · exact inv.pow
  · exact inv.mask_eq
  · simpa using hlen
  · show q.tail + 1 ≤ q.head
    omega
  · show q.head - (q.tail + 1) = rest.length
    omega
  · show q.head - (q.tail + 1) ≤ q.capacity - 1
    omega
  · intro j hj
    have hne : q.tail % q.capacity ≠ (q.tail + 1 + j) % q.capacity :=
      mod_ne_of_between _ _ _ hcpos (by omega) (by omega)
    show (q.slots.set _ _).getD ((q.tail + 1 + j) % q.capacity) _ = _
    rw [getD_set_ne _ _ _ hne]
    have hfull := inv.full (j + 1) (by simp; omega)
    rw [show q.tail + (j + 1) = q.tail + 1 + j by omega] at hfull
    rw [hfull]
    simp [List.get_eq_getElem]
  · intro i hi hiun
    by_cases hidx : i = q.tail % q.capacity
    · subst hidx
      show (q.slots.set _ _).getD _ _ = _
      rw [getD_set_self _ _ (by omega) _ _]
      have hnt : nextTicket q.head (q.tail % q.capacity) q.capacity = q.tail + q.capacity := by
        refine (nextTicket_unique _ _ _ _ hcpos hidxlt (by omega) (by omega) ?_).symm
        rw [Nat.add_mod_right]
      rw [hnt]
      congr 2
      rw [Nat.add_div_right _ hcpos]
    · show (q.slots.set _ _).getD i _ = _
      rw [getD_set_ne _ _ _ (fun h => hidx h.symm)]
      have hrestrict : ∀ j < (x :: rest).length, (q.tail + j) % q.capacity ≠ i := by
        intro j hj
        simp only [List.length_cons] at hj
        rcases Nat.eq_zero_or_pos j with hz | hp
        · subst hz
          simpa using fun h => hidx h.symm
        · have := hiun (j - 1) (by omega)
          rwa [show q.tail + 1 + (j - 1) = q.tail + j by omega] at this
      rw [inv.empty i hi hrestrict]

theorem inv_init (α : Type) (c : Nat) (h1 : 1 ≤ c) (h2 : c ≤ 2 ^ 63) :
    Inv (mkLockFreeQueue α c) ([] : List α) := by
  obtain ⟨k, hk63, hcap, hmask, hslots, hhead, htail⟩ := mkLockFreeQueue_spec α c h1 h2
  have hcpos : 0 < (mkLockFreeQueue α c).capacity := by rw [hcap]; positivity
  constructor
  · exact ⟨k, hcap⟩
  · exact hmask
  · rw [hslots, hcap, List.length_replicate]
  · rw [hhead, htail]
  · rw [hhead, htail]; rfl
  · rw [hhead, htail]; omega
  · intro j hj
    simp at hj
  · intro i hi hiun
    rw [hslots, ← hcap, getD_replicate _ _ hi]
    have hnt : nextTicket (mkLockFreeQueue α c).head i (mkLockFreeQueue α c).capacity = i := by
      rw [hhead]
      exact (nextTicket_unique 0 i _ i hcpos hi (by omega) (by omega)
        (Nat.mod_eq_of_lt hi)).symm
    rw [hnt, Nat.div_eq_of_lt hi]

theorem runOps_inv (ops : List (QueueOp α)) :
    ∀ q model, Inv q model →
      ∃ mf, Inv (runOps q ops).1 mf ∧
        model ++ (runOps q ops).2.1 = (runOps q ops).2.2 ++ mf := by
  induction ops with
  | nil =>
    intro q model inv
    exact ⟨model, inv, by simp [runOps]⟩
  | cons op ops ih =>
    intro q model inv
    cases op with
    | enq x =>
      by_cases hroom : model.length < q.capacity - 1
      · obtain ⟨heq, hinv'⟩ := enqueue_succeeds q model x inv hroom
        obtain ⟨mf, hi, hrel⟩ := ih _ _ hinv'
        refine ⟨mf, ?_, ?_⟩
        · simpa [runOps, heq] using hi
        · simp only [runOps, heq]
          simpa [List.append_assoc] using hrel
      · have hfull : q.capacity - 1 ≤ q.head - q.tail := by
          have := inv.count
          omega
        have heq := enqueue_full q x hfull
        obtain ⟨mf, hi, hrel⟩ := ih q model inv
        refine ⟨mf, ?_, ?_⟩
        · simpa [runOps, heq] using hi
        · simpa [runOps, heq] using hrel
    | deq =>
      cases model with
      | nil =>
        have heq := dequeue_empty_queue q inv
        obtain ⟨mf, hi, hrel⟩ := ih q [] inv
        refine ⟨mf, ?_, ?_⟩
        · simpa [runOps, heq] using hi
        · simpa [runOps, heq] using hrel
      | cons x rest =>
        obtain ⟨heq, hinv'⟩ := dequeue_succeeds q x rest inv
        obtain ⟨mf, hi, hrel⟩ := ih _ _ hinv'
        refine ⟨mf, ?_, ?_⟩
        · simpa [runOps, heq] using hi
        · simp only [runOps, heq]
          simpa using hrel

/-! ### Consumer and sync lemmas -/

theorem processLogEntryTpp_content (M : Nat) (t : Tm) (s : LoggerTpp) (e : LogEntry) :
    backendContent (processLogEntryTpp M t s e).backend =
      backendContent s.backend ++ entryOutput t e := by
  unfold processLogEntryTpp entryOutput
  by_cases hrot : M < s.current_size + (sanitizeString (formatLogLine t e)).length
  · simp [hrot, rotateLogFileTpp, mkFileLogBackend, writeB, writeNewlineB, backendContent]
  · simp [hrot, writeB, writeNewlineB, backendContent]

theorem processLogEntryTpp_size (M : Nat) (t : Tm) (s : LoggerTpp) (e : LogEntry) :
    (processLogEntryTpp M t s e).current_size =
      stepSize M s.current_size (sanitizeString (formatLogLine t e)).length := by
  unfold processLogEntryTpp stepSize
  by_cases hrot : M < s.current_size + (sanitizeString (formatLogLine t e)).length
  · simp [hrot, rotateLogFileTpp]
  · simp [hrot]

theorem syncDrain_spec (M : Nat) (t : Tm) :
    ∀ (model : List LogEntry) (fuel : Nat) (q : LockFreeQueue LogEntry) (st : LoggerTpp),
      Inv q model → model.length ≤ fuel →
      Inv (syncDrain M t fuel q st).1 ([] : List LogEntry) ∧
      backendContent (syncDrain M t fuel q st).2.backend =
        backendContent st.backend ++ (model.map (entryOutput t)).flatten := by
  intro model
  induction model with
  | nil =>
    intro fuel q st inv _
    have hdq := dequeue_empty_queue q inv
    cases fuel with
    | zero =>
      refine ⟨?_, ?_⟩
      · simpa [syncDrain] using inv
      · simp [syncDrain]
    | succ f =>
      refine ⟨?_, ?_⟩
      · simpa [syncDrain, hdq] using inv
      · simp [syncDrain, hdq]
  | cons x rest ih =>
    intro fuel q st inv hfuel
    cases fuel with
    | zero => simp at hfuel
    | succ f =>
      obtain ⟨hdq, hinv'⟩ := dequeue_succeeds q x rest inv
      have hrec := ih f _ (processLogEntryTpp M t st x) hinv' (by simpa using hfuel)
      refine ⟨?_, ?_⟩
      · simpa [syncDrain, hdq] using hrec.1
      · have hcont := processLogEntryTpp_content M t st x
        simp only [syncDrain, hdq]
        rw [hrec.2, hcont]
        simp [List.append_assoc]

theorem sublist_join_of_mem {α β : Type} (f : α → List β) (l : List α) (x : α)
    (hx : x ∈ l) : List.Sublist (f x) ((l.map f).flatten) := by
  induction l with
  | nil => cases hx
  | cons y ys ih =>
    rcases List.mem_cons.mp hx with h | h
    · subst h
      have hfl : ((x :: ys).map f).flatten = f x ++ (ys.map f).flatten := by simp
      rw [hfl]
      exact List.sublist_append_left _ _
    · have hfl : ((y :: ys).map f).flatten = f y ++ (ys.map f).flatten := by simp
      rw [hfl]
      exact List.Sublist.trans (ih h) (List.sublist_append_right _ _)

theorem rotationSegments_le (M : Nat) :
    ∀ (sizes : List Nat) (cur : Nat) (seen : Bool),
      (∀ n ∈ sizes, n ≤ M) → cur ≤ M →
      ∀ b ∈ rotationSegments M sizes cur seen, b ≤ M := by
  intro sizes
  induction sizes with
  | nil =>
    intro cur seen _ _ b hb
    simp [rotationSegments] at hb
  | cons n ns ih =>
    intro cur seen hall hcur b hb
    have hn : n ≤ M := hall n (by simp)
    have hrest : ∀ m ∈ ns, m ≤ M := fun m hm => hall m (by simp [hm])
    by_cases hrot : M < cur + n
    · simp only [rotationSegments, if_pos hrot] at hb
      rcases List.mem_append.mp hb with h1 | h1
      · cases seen with
        | false => simp at h1
        | true =>
          simp at h1
          omega
      · exact ih (stepSize M cur n) true hrest
          (by unfold stepSize; rw [if_pos hrot]; exact hn) b h1
    · simp only [rotationSegments, if_neg hrot] at hb
      exact ih (stepSize M cur n) seen hrest
        (by unfold stepSize; rw [if_neg hrot]; omega) b hb

/-! ### Formatting lemmas -/

theorem sanitize_append (a b : List Char) :
    sanitizeString (a ++ b) = sanitizeString a ++ sanitizeString b := by
  unfold sanitizeString
  exact List.filter_append a b

theorem sanitize_of_printable (l : List Char) (h : ∀ c ∈ l, isprint c = true) :
    sanitizeString l = l :=
  List.filter_eq_self.mpr h

theorem sanitize_printable (l : List Char) :
    ∀ c ∈ sanitizeString l, isprint c = true := by
  intro c hc
  exact (List.mem_filter.mp hc).2

theorem digitChar_printable (n : Nat) : isprint (digitChar n) = true := by
  unfold digitChar
  split <;> decide

theorem natDigitsAux_printable :
    ∀ (fuel n : Nat), ∀ c ∈ natDigitsAux fuel n, isprint c = true := by
  intro fuel
  induction fuel with
  | zero => intro n c hc; simp [natDigitsAux] at hc
  | succ f ih =>
    intro n c hc
    unfold natDigitsAux at hc
    by_cases hn : n < 10
    · rw [if_pos hn] at hc
      simp at hc
      rw [hc]
      exact digitChar_printable n
    · rw [if_neg hn] at hc
      rcases List.mem_append.mp hc with h | h
      · exact ih (n / 10) c h
      · simp at h
        rw [h]
        exact digitChar_printable (n % 10)

theorem renderNat_printable (n : Nat) : ∀ c ∈ renderNat n, isprint c = true :=
  natDigitsAux_printable (n + 1) n

theorem renderInt_printable (i : Int) : ∀ c ∈ renderInt i, isprint c = true := by
  intro c hc
  unfold renderInt at hc
  by_cases hi : i < 0
  · rw [if_pos hi] at hc
    rcases List.mem_cons.mp hc with h | h
    · rw [h]; decide
    · exact renderNat_printable i.natAbs c h
  · rw [if_neg hi] at hc
    exact renderNat_printable i.natAbs c hc

theorem pad2_printable (n : Nat) : ∀ c ∈ pad2 n, isprint c = true := by
  intro c hc
  unfold pad2 at hc
  by_cases hn : n < 10
  · rw [if_pos hn] at hc
    rcases List.mem_cons.mp hc with h | h
    · rw [h]; decide
    · exact renderNat_printable n c h
  · rw [if_neg hn] at hc
    exact renderNat_printable n c hc

theorem pad4_printable (n : Nat) : ∀ c ∈ pad4 n, isprint c = true := by
  intro c hc
  unfold pad4 at hc
  rcases List.mem_append.mp hc with h | h
  · by_cases h1 : n < 10
    · rw [if_pos h1] at h
      exact (by decide : ∀ x ∈ "000".data, isprint x = true) c h
    · rw [if_neg h1] at h
      by_cases h2 : n < 100
      · rw [if_pos h2] at h
        exact (by decide : ∀ x ∈ "00".data, isprint x = true) c h
      · rw [if_neg h2] at h
        by_cases h3 : n < 1000
        · rw [if_pos h3] at h
          exact (by decide : ∀ x ∈ "0".data, isprint x = true) c h
        · rw [if_neg h3] at h
          simp at h
  · exact renderNat_printable n c h

theorem getCurrentTime_printable (t : Tm) :
    ∀ c ∈ getCurrentTime t, isprint c = true := by
  intro c hc
  unfold getCurrentTime at hc
  simp only [List.append_assoc, List.mem_append] at hc
  rcases hc with h | h | h | h | h | h | h | h | h | h | h
  · exact pad4_printable t.year c h
  · simp at h; rw [h]; decide
  · exact pad2_printable t.mon c h
  · simp at h; rw [h]; decide
  · exact pad2_printable t.mday c h
  · simp at h; rw [h]; decide
  · exact pad2_printable t.hour c h
  · simp at h; rw [h]; decide
  · exact pad2_printable t.min c h
  · simp at h; rw [h]; decide
  · exact pad2_printable t.sec c h

theorem getVerbosityString_printable (v : Verbosity) :
    ∀ c ∈ getVerbosityString v, isprint c = true := by
  cases v <;> decide

theorem getVerbosityString_mem (v : Verbosity) :
    getVerbosityString v ∈
      ["DEBUG".data, "INFO".data, "WARN".data, "ERROR".data, "FATAL".data] := by
  cases v <;> simp [getVerbosityString]

theorem mem_takeWhile_mem {p : α → Bool} :
    ∀ (l : List α) (x : α), x ∈ l.takeWhile p → x ∈ l := by
  intro l
  induction l with
  | nil => intro x hx; simp [List.takeWhile] at hx
  | cons a as ih =>
    intro x hx
    rw [List.takeWhile_cons] at hx
    by_cases hp : p a
    · rw [if_pos hp] at hx
      rcases List.mem_cons.mp hx with h | h
      · simp [h]
      · simp [ih x h]
    · rw [if_neg hp] at hx
      simp at hx

theorem getFileName_mem (path : List Char) :
    ∀ c ∈ getFileName path, c ∈ path := by
  intro c hc
  unfold getFileName at hc
  rw [List.mem_reverse] at hc
  have := mem_takeWhile_mem path.reverse c hc
  rwa [List.mem_reverse] at this

/-! ### Decimal length lemmas -/

theorem natDigitsAux_small (fuel n : Nat) (hf : 1 ≤ fuel) (hn : n < 10) :
    natDigitsAux fuel n = [digitChar n] := by
  cases fuel with
  | zero => omega
  | succ f => simp [natDigitsAux, hn]

theorem natDigitsAux_len2 (fuel n : Nat) (hf : 2 ≤ fuel) (h1 : 10 ≤ n) (h2 : n < 100) :
    (natDigitsAux fuel n).length = 2 := by
  cases fuel with
  | zero => omega
  | succ f =>
    unfold natDigitsAux
    rw [if_neg (by omega)]
    rw [natDigitsAux_small f (n / 10) (by omega) (by omega)]
    rfl

theorem natDigitsAux_len3 (fuel n : Nat) (hf : 3 ≤ fuel) (h1 : 100 ≤ n) (h2 : n < 1000) :
    (natDigitsAux fuel n).length = 3 := by
  cases fuel with
  | zero => omega
  | succ f =>
    unfold natDigitsAux
    rw [if_neg (by omega)]
    rw [List.length_append, natDigitsAux_len2 f (n / 10) (by omega) (by omega) (by omega)]
    rfl

theorem natDigitsAux_len4 (fuel n : Nat) (hf : 4 ≤ fuel) (h1 : 1000 ≤ n) (h2 : n < 10000) :
    (natDigitsAux fuel n).length = 4 := by
  cases fuel with
  | zero => omega
  | succ f =>
    unfold natDigitsAux
    rw [if_neg (by omega)]
    rw [List.length_append, natDigitsAux_len3 f (n / 10) (by omega) (by omega) (by omega)]
    rfl

theorem pad2_length (n : Nat) (h : n < 100) : (pad2 n).length = 2 := by
  unfold pad2
  by_cases hn : n < 10
  · rw [if_pos hn]
    unfold renderNat
    rw [natDigitsAux_small (n + 1) n (by omega) hn]
    rfl
  · rw [if_neg hn]
    unfold renderNat
    exact natDigitsAux_len2 (n + 1) n (by omega) (by omega) h

theorem pad4_length (n : Nat) (h : n < 10000) : (pad4 n).length = 4 := by
  unfold pad4 renderNat
  by_cases h1 : n < 10
  · rw [if_pos h1, natDigitsAux_small (n + 1) n (by omega) h1]
    rfl
  · rw [if_neg h1]
    by_cases h2 : n < 100
    · rw [if_pos h2, List.length_append, natDigitsAux_len2 (n + 1) n (by omega) (by omega) h2]
      rfl
    · rw [if_neg h2]
      by_cases h3 : n < 1000
      · rw [if_pos h3, List.length_append,
          natDigitsAux_len3 (n + 1) n (by omega) (by omega) h3]
        rfl
      · rw [if_neg h3, List.length_append,
          natDigitsAux_len4 (n + 1) n (by omega) (by omega) h]
        rfl

theorem getCurrentTime_length (t : Tm) (hy : t.year < 10000) (hmo : t.mon < 100)
    (hd : t.mday < 100) (hh : t.hour < 100) (hmi : t.min < 100) (hs : t.sec < 100) :
    (getCurrentTime t).length = 19 := by
  unfold getCurrentTime
  simp only [List.length_append]
  rw [pad4_length t.year hy, pad2_length t.mon hmo, pad2_length t.mday hd,
    pad2_length t.hour hh, pad2_length t.min hmi, pad2_length t.sec hs]
  rfl

/-! ### Claim theorems -/

/-- C4: for any sequence of successful enqueues and dequeues on the ring
buffer that returns it to `head == tail`, the sequence of dequeued values
equals the sequence of enqueued values — in particular a single
producer's records are dequeued in enqueue order (FIFO). -/
theorem c4_ring_fifo_roundtrip {α : Type} (c : Nat) (h1 : 1 ≤ c) (h2 : c ≤ 2 ^ 63)
    (ops : List (QueueOp α))
    (hdone : (runOps (mkLockFreeQueue α c) ops).1.head =
             (runOps (mkLockFreeQueue α c) ops).1.tail) :
    (runOps (mkLockFreeQueue α c) ops).2.2 = (runOps (mkLockFreeQueue α c) ops).2.1 := by
  obtain ⟨mf, hi, hrel⟩ := runOps_inv ops _ [] (inv_init α c h1 h2)
  have hlen : mf.length = 0 := by
    have hc := hi.count
    have ht := hi.tail_le
    omega
  have hmf : mf = [] := List.eq_nil_of_length_eq_zero hlen
  subst hmf
  simpa using hrel.symm

/-- Witness for C4 at a concrete run: capacity request 4, enqueue 7 and 8,
dequeue twice; the queue returns to `head == tail` and the dequeued
sequence equals the enqueued sequence. -/
theorem c4_ring_fifo_roundtrip_witness :
    (1 ≤ 4 ∧ (4 : Nat) ≤ 2 ^ 63 ∧
      (runOps (mkLockFreeQueue Nat 4)
        [QueueOp.enq 7, QueueOp.enq 8, QueueOp.deq, QueueOp.deq]).1.head =
      (runOps (mkLockFreeQueue Nat 4)
        [QueueOp.enq 7, QueueOp.enq 8, QueueOp.deq, QueueOp.deq]).1.tail) ∧
    (runOps (mkLockFreeQueue Nat 4)
      [QueueOp.enq 7, QueueOp.enq 8, QueueOp.deq, QueueOp.deq]).2.2 =
    (runOps (mkLockFreeQueue Nat 4)
      [QueueOp.enq 7, QueueOp.enq 8, QueueOp.deq, QueueOp.deq]).2.1 :=
  ⟨⟨by decide, by decide, by decide⟩,
    c4_ring_fifo_roundtrip 4 (by decide) (by decide)
      [QueueOp.enq 7, QueueOp.enq 8, QueueOp.deq, QueueOp.deq] (by decide)⟩

/-- C5: when the ring is full (`head − tail ≥ capacity − 1`), `enqueue`
returns false and leaves the queue state unchanged, and `log` then drops
the record silently: the producer state is returned unchanged and `log`'s
result carries no exception or error code. -/
theorem c5_full_enqueue_drops (q : LockFreeQueue LogEntry) (x : LogEntry)
    (s : ProducerState) (level : Verbosity) (file : List Char) (line : Int)
    (fmtStr formatted : List Char)
    (hq : q.capacity - 1 ≤ q.head - q.tail)
    (hs : s.queue.capacity - 1 ≤ s.queue.head - s.queue.tail) :
    enqueue q x = (false, q) ∧
    log s level file line fmtStr formatted = s := by
  constructor
  · unfold enqueue
    rw [if_pos hq]
  · unfold log
    by_cases hlvl : s.log_level.toNat ≤ level.toNat
    · rw [if_pos hlvl]
      have henq : enqueue s.queue ⟨level, file, line, fmtStr, formatted⟩ = (false, s.queue) := by
        unfold enqueue
        rw [if_pos hs]
      rw [henq]
    · rw [if_neg hlvl]

/-- Witness for C5: the constructor-built capacity-1 ring (the
`capacity − 1` fullness rule makes it permanently full, as the spec's
edge-case note observes) drops an entry, and a `log` call on it returns
the producer state unchanged. -/
theorem c5_full_enqueue_drops_witness :
    ((mkLockFreeQueue LogEntry 1).capacity - 1 ≤
        (mkLockFreeQueue LogEntry 1).head - (mkLockFreeQueue LogEntry 1).tail) ∧
    enqueue (mkLockFreeQueue LogEntry 1)
        ⟨Verbosity.INFO_LVL, "a.c".data, 1, "m".data, "m".data⟩ =
      (false, mkLockFreeQueue LogEntry 1) ∧
    log ⟨mkLockFreeQueue LogEntry 1, Verbosity.DEBUG_LVL⟩ Verbosity.INFO_LVL
        "a.c".data 1 "m".data "m".data =
      ⟨mkLockFreeQueue LogEntry 1, Verbosity.DEBUG_LVL⟩ :=
  ⟨by decide,
    (c5_full_enqueue_drops (mkLockFreeQueue LogEntry 1)
      ⟨Verbosity.INFO_LVL, "a.c".data, 1, "m".data, "m".data⟩
      ⟨mkLockFreeQueue LogEntry 1, Verbosity.DEBUG_LVL⟩ Verbosity.INFO_LVL
      "a.c".data 1 "m".data "m".data (by decide) (by decide)).1,
    (c5_full_enqueue_drops (mkLockFreeQueue LogEntry 1)
      ⟨Verbosity.INFO_LVL, "a.c".data, 1, "m".data, "m".data⟩
      ⟨mkLockFreeQueue LogEntry 1, Verbosity.DEBUG_LVL⟩ Verbosity.INFO_LVL
      "a.c".data 1 "m".data "m".data (by decide) (by decide)).2⟩

/-- C6: for every sequence of enqueue and dequeue operations on a ring
constructed with requested capacity `c` (rounded to capacity `C`),
starting from the initial state, at every observation the counters
satisfy `0 ≤ head − tail ≤ C − 1`: `head` is never less than `tail` and
the logical size never exceeds `C − 1`.  (Every observation point of an
execution is the final state of the prefix of operations up to it, so
quantifying over all operation sequences covers all observations.) -/
theorem c6_head_tail_bounds {α : Type} (c : Nat) (h1 : 1 ≤ c) (h2 : c ≤ 2 ^ 63)
    (ops : List (QueueOp α)) :
    (runOps (mkLockFreeQueue α c) ops).1.tail ≤ (runOps (mkLockFreeQueue α c) ops).1.head ∧
    (runOps (mkLockFreeQueue α c) ops).1.head - (runOps (mkLockFreeQueue α c) ops).1.tail ≤
      (runOps (mkLockFreeQueue α c) ops).1.capacity - 1 := by
  obtain ⟨mf, hi, _⟩ := runOps_inv ops _ [] (inv_init α c h1 h2)
  exact ⟨hi.tail_le, hi.bound⟩

/-- Witness for C6 at a concrete run mixing successful and failed
operations on a capacity-4 ring. -/
theorem c6_head_tail_bounds_witness :
    (1 ≤ 4 ∧ (4 : Nat) ≤ 2 ^ 63) ∧
    ((runOps (mkLockFreeQueue Nat 4)
        [QueueOp.deq, QueueOp.enq 1, QueueOp.enq 2, QueueOp.enq 3, QueueOp.enq 4,
         QueueOp.deq]).1.tail ≤
      (runOps (mkLockFreeQueue Nat 4)
        [QueueOp.deq, QueueOp.enq 1, QueueOp.enq 2, QueueOp.enq 3, QueueOp.enq 4,
         QueueOp.deq]).1.head ∧
      (runOps (mkLockFreeQueue Nat 4)
        [QueueOp.deq, QueueOp.enq 1, QueueOp.enq 2, QueueOp.enq 3, QueueOp.enq 4,
         QueueOp.deq]).1.head -
        (runOps (mkLockFreeQueue Nat 4)
          [QueueOp.deq, QueueOp.enq 1, QueueOp.enq 2, QueueOp.enq 3, QueueOp.enq 4,
           QueueOp.deq]).1.tail ≤
        (runOps (mkLockFreeQueue Nat 4)
          [QueueOp.deq, QueueOp.enq 1, QueueOp.enq 2, QueueOp.enq 3, QueueOp.enq 4,
           QueueOp.deq]).1.capacity - 1) :=
  ⟨⟨by decide, by decide⟩,
    c6_head_tail_bounds 4 (by decide) (by decide)
      [QueueOp.deq, QueueOp.enq 1, QueueOp.enq 2, QueueOp.enq 3, QueueOp.enq 4,
       QueueOp.deq]⟩

/-- C2: for every record that was enqueued before `sync` and not consumed
by another consumer (in the sequential model: every record in the queue,
`model`), that record has been formatted, written to the sink, and
flushed by the time `sync` returns: `sync` dequeues and processes
records until the queue yields no more, then flushes the sink.  On
return the queue is empty (`head = tail`), the sink buffer is drained,
and the device holds the prior content followed by each drained record's
formatted line, each of which therefore appears on the flushed device. -/
theorem c2_sync_flushes_enqueued (M fuel : Nat) (t : Tm)
    (q : LockFreeQueue LogEntry) (st : LoggerTpp) (model : List LogEntry)
    (inv : Inv q model) (hfuel : model.length ≤ fuel) :
    (sync M t fuel q st).1.head = (sync M t fuel q st).1.tail ∧
    (sync M t fuel q st).2.backend.pending = [] ∧
    (sync M t fuel q st).2.backend.device =
      backendContent st.backend ++ (model.map (entryOutput t)).flatten ∧
    ∀ e ∈ model, List.Sublist (entryOutput t e) (sync M t fuel q st).2.backend.device := by
  obtain ⟨hinv, hcont⟩ := syncDrain_spec M t model fuel q st inv hfuel
  have hht : (syncDrain M t fuel q st).1.head = (syncDrain M t fuel q st).1.tail := by
    have hc := hinv.count
    have hl := hinv.tail_le
    simp at hc
    omega
  refine ⟨hht, rfl, ?_, ?_⟩
  · show (flushB (syncDrain M t fuel q st).2.backend).device = _
    unfold flushB
    rw [← hcont]
    rfl
  · intro e he
    show List.Sublist _ (flushB (syncDrain M t fuel q st).2.backend).device
    unfold flushB
    show List.Sublist _ ((syncDrain M t fuel q st).2.backend.device ++
      (syncDrain M t fuel q st).2.backend.pending)
    rw [show (syncDrain M t fuel q st).2.backend.device ++
          (syncDrain M t fuel q st).2.backend.pending =
        backendContent (syncDrain M t fuel q st).2.backend from rfl, hcont]
    exact List.Sublist.trans (sublist_join_of_mem (entryOutput t) model e he)
      (List.sublist_append_right _ _)

/-- Witness for C2: syncing a queue holding one concrete record writes
its line to the device and empties the queue. -/
theorem c2_sync_flushes_enqueued_witness :
    (Inv ((runOps (mkLockFreeQueue LogEntry 4)
        [QueueOp.enq ⟨Verbosity.INFO_LVL, "a.c".data, 1, "m".data, "hi".data⟩]).1)
        [⟨Verbosity.INFO_LVL, "a.c".data, 1, "m".data, "hi".data⟩] ∧
      (1 : Nat) ≤ 2) ∧
    (sync 1024 ⟨2024, 1, 2, 3, 4, 5⟩ 2
        ((runOps (mkLockFreeQueue LogEntry 4)
          [QueueOp.enq ⟨Verbosity.INFO_LVL, "a.c".data, 1, "m".data, "hi".data⟩]).1)
        ⟨⟨[], []⟩, 0⟩).1.head =
      (sync 1024 ⟨2024, 1, 2, 3, 4, 5⟩ 2
        ((runOps (mkLockFreeQueue LogEntry 4)
          [QueueOp.enq ⟨Verbosity.INFO_LVL, "a.c".data, 1, "m".data, "hi".data⟩]).1)
        ⟨⟨[], []⟩, 0⟩).1.tail := by
  have hinv : Inv ((runOps (mkLockFreeQueue LogEntry 4)
      [QueueOp.enq ⟨Verbosity.INFO_LVL, "a.c".data, 1, "m".data, "hi".data⟩]).1)
      [⟨Verbosity.INFO_LVL, "a.c".data, 1, "m".data, "hi".data⟩] := by
    have hroom : ([] : List LogEntry).length < (mkLockFreeQueue LogEntry 4).capacity - 1 := by
      decide
    have h := enqueue_succeeds (mkLockFreeQueue LogEntry 4)
      [] ⟨Verbosity.INFO_LVL, "a.c".data, 1, "m".data, "hi".data⟩
      (inv_init LogEntry 4 (by decide) (by decide)) hroom
    have hq : (runOps (mkLockFreeQueue LogEntry 4)
        [QueueOp.enq ⟨Verbosity.INFO_LVL, "a.c".data, 1, "m".data, "hi".data⟩]).1 =
        (enqueue (mkLockFreeQueue LogEntry 4)
          ⟨Verbosity.INFO_LVL, "a.c".data, 1, "m".data, "hi".data⟩).2 := by
      simp [runOps]
    rw [hq, h.1]
    simpa using h.2
  exact ⟨⟨hinv, by decide⟩,
    (c2_sync_flushes_enqueued 1024 2 ⟨2024, 1, 2, 3, 4, 5⟩ _ ⟨⟨[], []⟩, 0⟩ _ hinv
      (by decide)).1⟩

/-- C3: a `log` call at a level below the engine's current level returns
immediately and enqueues nothing (the producer state is unchanged);
at a level at least the current level the record — carrying the message
the external formatter produced — is built and enqueued.  Hence after
`setLogLevel L`, every subsequently emitted record at a level below `L`
is dropped at the producer. -/
theorem c3_producer_level_filter (s : ProducerState) (L level : Verbosity)
    (file : List Char) (line : Int) (fmtStr formatted : List Char)
    (model : List LogEntry) :
    (level.toNat < L.toNat →
      log (setLogLevel s L) level file line fmtStr formatted = setLogLevel s L) ∧
    (L.toNat ≤ level.toNat →
      Inv (setLogLevel s L).queue model →
      model.length < (setLogLevel s L).queue.capacity - 1 →
      Inv (log (setLogLevel s L) level file line fmtStr formatted).queue
        (model ++ [⟨level, file, line, fmtStr, formatted⟩])) := by
  constructor
  · intro hlt
    unfold log
    rw [if_neg (by simp [setLogLevel]; omega)]
  · intro hge inv hroom
    obtain ⟨heq, hinv'⟩ := enqueue_succeeds (setLogLevel s L).queue model
      ⟨level, file, line, fmtStr, formatted⟩ inv hroom
    unfold log
    rw [if_pos (by simpa [setLogLevel] using hge)]
    simpa [heq] using hinv'

/-- Witness for C3: with the level set to WARN, an INFO record leaves the
producer state untouched, and an ERROR record is enqueued. -/
theorem c3_producer_level_filter_witness :
    (Verbosity.INFO_LVL.toNat < Verbosity.WARN_LVL.toNat ∧
      log (setLogLevel ⟨mkLockFreeQueue LogEntry 4, Verbosity.DEBUG_LVL⟩ Verbosity.WARN_LVL)
          Verbosity.INFO_LVL "a.c".data 1 "m".data "i".data =
        setLogLevel ⟨mkLockFreeQueue LogEntry 4, Verbosity.DEBUG_LVL⟩ Verbosity.WARN_LVL) ∧
    (Verbosity.WARN_LVL.toNat ≤ Verbosity.ERROR_LVL.toNat ∧
      Inv (setLogLevel ⟨mkLockFreeQueue LogEntry 4, Verbosity.DEBUG_LVL⟩
            Verbosity.WARN_LVL).queue ([] : List LogEntry) ∧
      Inv (log (setLogLevel ⟨mkLockFreeQueue LogEntry 4, Verbosity.DEBUG_LVL⟩
            Verbosity.WARN_LVL) Verbosity.ERROR_LVL "a.c".data 1 "m".data "e".data).queue
        ([] ++ [⟨Verbosity.ERROR_LVL, "a.c".data, 1, "m".data, "e".data⟩])) :=
  ⟨⟨by decide,
    (c3_producer_level_filter ⟨mkLockFreeQueue LogEntry 4, Verbosity.DEBUG_LVL⟩
      Verbosity.WARN_LVL Verbosity.INFO_LVL "a.c".data 1 "m".data "i".data []).1
      (by decide)⟩,
   ⟨by decide, inv_init LogEntry 4 (by decide) (by decide),
    (c3_producer_level_filter ⟨mkLockFreeQueue LogEntry 4, Verbosity.DEBUG_LVL⟩
      Verbosity.WARN_LVL Verbosity.ERROR_LVL "a.c".data 1 "m".data "e".data []).2
      (by decide) (inv_init LogEntry 4 (by decide) (by decide)) (by decide)⟩⟩

/-- C1 counterexample: the header revision's `rotateLogFile`
(logger.hpp:192-200) re-opens the filename with `std::ios::trunc`: on a
concrete state whose file holds "x", rotation leaves an empty file, so
the claim's "existing content is preserved across rotation" fails for
that revision. -/
theorem c1_counterexample :
    backendContent (rotateLogFileHpp ⟨⟨[], "x".data⟩, 5⟩).logfile ≠
      backendContent (⟨⟨[], "x".data⟩, 5⟩ : LoggerHpp).logfile := by
  decide

/-- C1 (amended): only the backend revision (logger.tpp:138-144) rotates
by constructing a fresh `FileLogBackend` on the same filename in append
mode, preserving the file's existing content, and resets `current_size`
to zero; the header revision (logger.hpp:192-200) re-opens the same
filename with truncation, discarding the existing content, and also
resets `current_size` to zero. -/
theorem c1_rotation_semantics (s : LoggerTpp) (sh : LoggerHpp) :
    (rotateLogFileTpp s).backend = mkFileLogBackend (backendContent s.backend) ∧
    backendContent (rotateLogFileTpp s).backend = backendContent s.backend ∧
    (rotateLogFileTpp s).current_size = 0 ∧
    (rotateLogFileHpp sh).logfile.device = [] ∧
    (rotateLogFileHpp sh).logfile.pending = [] ∧
    (rotateLogFileHpp sh).current_size = 0 := by
  refine ⟨rfl, ?_, rfl, rfl, rfl, rfl⟩
  simp [rotateLogFileTpp, mkFileLogBackend, backendContent]

/-- C8 counterexample: with `max_file_size = 40`, a single record whose
sanitized line has 53 bytes (longer than `M`) is written right after the
rotation it triggers; the next record then triggers the following
rotation, so 53 > 40 bytes of record text were written between two
rotations.  The sizes are computed by the real formatting pipeline, and
the consumer state evolution confirms `current_size = 53` when the
second rotation triggers. -/
theorem c8_counterexample :
    ¬ (∀ b ∈ rotationSegments 40
        [(sanitizeString (formatLogLine ⟨2024, 1, 2, 3, 4, 5⟩
            ⟨Verbosity.INFO_LVL, "a.c".data, 1, "m".data, "aaaaaaaaaaaaaaaaaaaa".data⟩)).length,
         (sanitizeString (formatLogLine ⟨2024, 1, 2, 3, 4, 5⟩
            ⟨Verbosity.INFO_LVL, "a.c".data, 1, "m".data, "x".data⟩)).length]
        0 false, b ≤ 40) ∧
    (processLogEntryTpp 40 ⟨2024, 1, 2, 3, 4, 5⟩ ⟨⟨[], []⟩, 0⟩
        ⟨Verbosity.INFO_LVL, "a.c".data, 1, "m".data, "aaaaaaaaaaaaaaaaaaaa".data⟩).current_size
      = 53 ∧
    40 < 53 +
      (sanitizeString (formatLogLine ⟨2024, 1, 2, 3, 4, 5⟩
        ⟨Verbosity.INFO_LVL, "a.c".data, 1, "m".data, "x".data⟩)).length := by
  refine ⟨?_, by decide, by decide⟩
  decide

/-- C8 (amended): with rotation threshold `M`, provided every record's
sanitized line is at most `M` bytes, between any two rotations the
consumer writes at most `M` bytes of record text; rotation is invoked
exactly when `current_size` plus the next line's byte count exceeds `M`,
and `current_size` advances by each line's pre-newline byte count (a
single record longer than `M` breaks the bound, as the counterexample
shows). -/
theorem c8_rotation_bound (M : Nat) (sizes : List Nat) (h : ∀ n ∈ sizes, n ≤ M) :
    (∀ b ∈ rotationSegments M sizes 0 false, b ≤ M) ∧
    (∀ (t : Tm) (st : LoggerTpp) (e : LogEntry),
      (processLogEntryTpp M t st e).current_size =
        stepSize M st.current_size (sanitizeString (formatLogLine t e)).length) :=
  ⟨rotationSegments_le M sizes 0 false h (by omega),
   fun t st e => processLogEntryTpp_size M t st e⟩

/-- Witness for C8 at concrete sizes all below the threshold. -/
theorem c8_rotation_bound_witness :
    (∀ n ∈ [30, 40, 50], n ≤ 100) ∧
    (∀ b ∈ rotationSegments 100 [30, 40, 50] 0 false, b ≤ 100) :=
  ⟨by decide, (c8_rotation_bound 100 [30, 40, 50] (by decide)).1⟩

/-- C9: the registry hands out the same engine for the same resolved path
on every lookup — but `resetGlobalLogger` erases the path from its own
freshly allocated static map, distinct from the map `getGlobalLogger`
consults, so after a reset the next lookup still returns the old engine
and constructs nothing fresh, contradicting the reinitializability the
spec requires.  Evaluated at the failing input (path "a.log"): the first
lookup constructs engine 0; the second lookup returns the same engine 0;
after `resetGlobalLogger("a.log")` the instance map is unchanged and the
next lookup still returns engine 0 with the registry unchanged (a fresh
construction would have returned engine 1). -/
theorem c9_reset_ineffective :
    (getGlobalLogger initialRegistry "a.log".data).1 = 0 ∧
    (getGlobalLogger (getGlobalLogger initialRegistry "a.log".data).2 "a.log".data).1 = 0 ∧
    (resetGlobalLogger (getGlobalLogger initialRegistry "a.log".data).2 "a.log".data).instances
      = (getGlobalLogger initialRegistry "a.log".data).2.instances ∧
    (getGlobalLogger
        (resetGlobalLogger (getGlobalLogger initialRegistry "a.log".data).2 "a.log".data)
        "a.log".data).1 = 0 ∧
    (getGlobalLogger
        (resetGlobalLogger (getGlobalLogger initialRegistry "a.log".data).2 "a.log".data)
        "a.log".data).2
      = resetGlobalLogger (getGlobalLogger initialRegistry "a.log".data).2 "a.log".data ∧
    (resetGlobalLogger (getGlobalLogger initialRegistry "a.log".data).2 "a.log".data).nextEngine
      = 1 := by
  decide

/-- C10: `nextPowerOf2 0 = 0` (the `size_t` decrement wraps to `2^64 − 1`
and the final increment wraps back to 0), so a requested capacity of 0
yields a queue with capacity 0 — the divisor of the `turn = ticket /
capacity` computation — mask `2^64 − 1`, and an empty slot vector whose
first access `slots[head & mask]` is out of bounds; for every requested
capacity from 1 up to `2^63` the constructed capacity is a power of two
and every slot index `ticket & mask` is strictly less than the number of
allocated slots. -/
theorem c10_capacity_rounding (α : Type) :
    nextPowerOf2 0 = 0 ∧
    (mkLockFreeQueue α 0).capacity = 0 ∧
    (mkLockFreeQueue α 0).mask = 2 ^ 64 - 1 ∧
    (mkLockFreeQueue α 0).slots = [] ∧
    ¬ ((mkLockFreeQueue α 0).head &&& (mkLockFreeQueue α 0).mask <
        (mkLockFreeQueue α 0).slots.length) ∧
    (∀ v, 1 ≤ v → v ≤ 2 ^ 63 →
      (∃ k, (mkLockFreeQueue α v).capacity = 2 ^ k) ∧
      ∀ ticket, ticket &&& (mkLockFreeQueue α v).mask <
        (mkLockFreeQueue α v).slots.length) := by
  have hz : nextPowerOf2 0 = 0 := nextPowerOf2_zero
  have hcap : (mkLockFreeQueue α 0).capacity = 0 := hz
  refine ⟨hz, hcap, ?_, ?_, ?_, ?_⟩
  · show (nextPowerOf2 0 + (sizeTMod - 1)) % sizeTMod = 2 ^ 64 - 1
    rw [hz]
    show (0 + (sizeTMod - 1)) % sizeTMod = 2 ^ 64 - 1
    have hm : sizeTMod = 2 ^ 64 := rfl
    rw [hm, Nat.zero_add]
    exact Nat.mod_eq_of_lt (by omega)
  · show List.replicate (nextPowerOf2 0) (⟨0, none⟩ : Slot α) = []
    rw [hz]
    rfl
  · show ¬ ((0 : Nat) &&& (mkLockFreeQueue α 0).mask <
      (List.replicate (nextPowerOf2 0) (⟨0, none⟩ : Slot α)).length)
    rw [hz]
    simp
  · intro v h1 h2
    obtain ⟨k, hk63, hcapv, hmask, hslots, _, _⟩ := mkLockFreeQueue_spec α v h1 h2
    refine ⟨⟨k, hcapv⟩, ?_⟩
    intro ticket
    rw [hslots, List.length_replicate, hmask, hcapv]
    refine Nat.and_lt_two_pow ticket ?_
    have hpos : 0 < (2 : Nat) ^ k := by positivity
    omega

/-- Witness for C10's quantified part at requested capacity 5 (rounded to
8): the capacity is a power of two and a concrete large ticket's slot
index is in bounds. -/
theorem c10_capacity_rounding_witness :
    ((1 : Nat) ≤ 5 ∧ (5 : Nat) ≤ 2 ^ 63) ∧
    (∃ k, (mkLockFreeQueue Unit 5).capacity = 2 ^ k) ∧
    (123456789 &&& (mkLockFreeQueue Unit 5).mask <
      (mkLockFreeQueue Unit 5).slots.length) :=
  ⟨⟨by decide, by decide⟩,
   ((c10_capacity_rounding Unit).2.2.2.2.2 5 (by decide) (by decide)).1,
   ((c10_capacity_rounding Unit).2.2.2.2.2 5 (by decide) (by decide)).2 123456789⟩

/-- C7: every record processed by the consumer appends to the sink
exactly one output line followed by exactly one newline byte; the
pre-newline bytes are `timestamp [LEVEL] basename:line message` where the
timestamp is the 19-byte `YYYY-MM-DD HH:MM:SS` rendering, `LEVEL` is one
of DEBUG/INFO/WARN/ERROR/FATAL, `basename` is the portion of the source
path after the last `/` or `\`, and every byte with `isprint = 0` has
been removed before the newline is written (the hypotheses bound the
broken-down time to its `tm` ranges and make the source path printable,
as string-literal paths are). -/
theorem c7_line_format (M : Nat) (t : Tm) (st : LoggerTpp) (e : LogEntry)
    (hfile : ∀ c ∈ e.file, isprint c = true)
    (hy : t.year < 10000) (hmo : t.mon < 100) (hd : t.mday < 100)
    (hh : t.hour < 100) (hmi : t.min < 100) (hs : t.sec < 100) :
    backendContent (processLogEntryTpp M t st e).backend =
      backendContent st.backend ++ sanitizeString (formatLogLine t e) ++ ['\n'] ∧
    sanitizeString (formatLogLine t e) =
      getCurrentTime t ++ " [".data ++ getVerbosityString e.level ++ "] ".data ++
      getFileName e.file ++ ":".data ++ renderInt e.line ++ " ".data ++
      sanitizeString e.args ∧
    (getCurrentTime t).length = 19 ∧
    getVerbosityString e.level ∈
      ["DEBUG".data, "INFO".data, "WARN".data, "ERROR".data, "FATAL".data] ∧
    (∀ c ∈ sanitizeString (formatLogLine t e), isprint c = true) ∧
    (sanitizeString (formatLogLine t e) ++ ['\n']).count '\n' = 1 := by
  refine ⟨?_, ?_, getCurrentTime_length t hy hmo hd hh hmi hs,
    getVerbosityString_mem e.level, sanitize_printable _, ?_⟩
  · rw [processLogEntryTpp_content M t st e]
    unfold entryOutput
    rw [List.append_assoc]
  · unfold formatLogLine
    simp only [sanitize_append]
    rw [sanitize_of_printable (getCurrentTime t) (getCurrentTime_printable t),
      sanitize_of_printable " [".data (by decide),
      sanitize_of_printable (getVerbosityString e.level) (getVerbosityString_printable _),
      sanitize_of_printable "] ".data (by decide),
      sanitize_of_printable (getFileName e.file)
        (fun c hc => hfile c (getFileName_mem e.file c hc)),
      sanitize_of_printable ":".data (by decide),
      sanitize_of_printable (renderInt e.line) (renderInt_printable _),
      sanitize_of_printable " ".data (by decide)]
  · have h0 : (sanitizeString (formatLogLine t e)).count '\n' = 0 :=
      List.count_eq_zero.mpr (fun hmem => by
        have := sanitize_printable (formatLogLine t e) '\n' hmem
        exact absurd this (by decide))
    rw [List.count_append, h0]
    rfl

/-- Witness for C7 at a concrete record (path "d/a.c", line 10, message
"hi" followed by the non-printable byte 0x01): the pre-newline bytes
decompose as claimed — the basename is "a.c" and the 0x01 byte is
removed — and the output holds exactly one newline. -/
theorem c7_line_format_witness :
    ((∀ c ∈ "d/a.c".data, isprint c = true) ∧
      (2024 : Nat) < 10000 ∧ (1 : Nat) < 100 ∧ (2 : Nat) < 100 ∧
      (3 : Nat) < 100 ∧ (4 : Nat) < 100 ∧ (5 : Nat) < 100) ∧
    sanitizeString (formatLogLine ⟨2024, 1, 2, 3, 4, 5⟩
        ⟨Verbosity.DEBUG_LVL, "d/a.c".data, 10, "m".data,
          "hi".data ++ [Char.ofNat 1]⟩) =
      getCurrentTime ⟨2024, 1, 2, 3, 4, 5⟩ ++ " [".data ++
      getVerbosityString Verbosity.DEBUG_LVL ++ "] ".data ++
      getFileName "d/a.c".data ++ ":".data ++ renderInt 10 ++ " ".data ++
      sanitizeString ("hi".data ++ [Char.ofNat 1]) ∧
    (sanitizeString (formatLogLine ⟨2024, 1, 2, 3, 4, 5⟩
        ⟨Verbosity.DEBUG_LVL, "d/a.c".data, 10, "m".data,
          "hi".data ++ [Char.ofNat 1]⟩) ++ ['\n']).count '\n' = 1 :=
  ⟨⟨by decide, by decide, by decide, by decide, by decide, by decide, by decide⟩,
   (c7_line_format 1024 ⟨2024, 1, 2, 3, 4, 5⟩ ⟨⟨[], []⟩, 0⟩
      ⟨Verbosity.DEBUG_LVL, "d/a.c".data, 10, "m".data, "hi".data ++ [Char.ofNat 1]⟩
      (by decide) (by decide) (by decide) (by decide) (by decide) (by decide)
      (by decide)).2.1,
   (c7_line_format 1024 ⟨2024, 1, 2, 3, 4, 5⟩ ⟨⟨[], []⟩, 0⟩
      ⟨Verbosity.DEBUG_LVL, "d/a.c".data, 10, "m".data, "hi".data ++ [Char.ofNat 1]⟩
      (by decide) (by decide) (by decide) (by decide) (by decide) (by decide)
      (by decide)).2.2.2.2.2⟩

end Zerg
